import Mathlib

/- Shallow embedding of the yupoo-api repository.

   Source variants modelled here:
   * namespace `V1` — first half of src/server.js (the "multi-host +
     resource-scan" server: extractSmall, /api/yupoo, browser-context /img).
   * namespace `V2` — second half of src/server.js (the "progressive yupoo"
     server: the RUNNING set, scrapeAlbumProgressive, /api/yupoo/progress,
     fetchImageWithRetry and the fetch-based /img).
   * namespace `P1` — src/unnamed/part_001 (the lightweight progressive
     server: scrapeAlbum, /api/yupoo/progress, passthrough /img).
   * namespace `W`  — first half of src/unnamed/part_002 (the edge-worker
     variant: absUrl, /img branch).

   JavaScript strings are modelled as Lean `String`; the JS helpers
   `includes`, `endsWith`, `toLowerCase`, `split("?")[0]`, `slice` are
   modelled on the underlying character lists.  All URLs handled by the
   program are ASCII, where JavaScript `toLowerCase` agrees with
   `Char.toLower` applied characterwise. -/

/-- JavaScript `s.toLowerCase()` (ASCII model, characterwise `Char.toLower`). -/
def jsToLower (s : String) : String := String.mk (s.toList.map Char.toLower)

/-- Does `hay` contain `needle` as a contiguous run?  Model of JS
    `hay.includes(needle)`. -/
def listContains (hay needle : List Char) : Bool :=
  match hay with
  | [] => needle.isEmpty
  | _ :: rest => needle.isPrefixOf hay || listContains rest needle

/-- JS `hay.includes(needle)` on strings. -/
def strContains (hay needle : String) : Bool := listContains hay.toList needle.toList

/-- JS `s.endsWith(pat)`. -/
def strEndsWith (s pat : String) : Bool := pat.toList.reverse.isPrefixOf s.toList.reverse

/-- JS `s.slice(0, n)` / `buf.slice(0, n).toString()` for a nonnegative bound. -/
def strTake (n : Nat) (s : String) : String := String.mk (s.toList.take n)

/-- JS `u.split("?")[0]`: the prefix of `u` before the first '?'
    (`stripQuery` in src/server.js and src/unnamed/part_002). -/
def stripQuery (u : String) : String := String.mk (u.toList.takeWhile (fun c => c ≠ '?'))

/- ===== Model of the WHATWG `new URL(input, base)` constructor =====

   The pipelines call the platform URL constructor (src/server.js lines
   134–145, src/unnamed/part_002 `absUrl`).  The model below covers the URL
   shapes the pipelines meet: absolute special-scheme URLs with an
   authority, absolute non-special-scheme URLs (opaque path, e.g.
   `javascript:`), scheme-relative, path-absolute and path-relative
   references against a special-scheme base.  Percent-encoding, host
   canonicalisation, `..` segments and fragments are not modelled (the
   inputs exercised by the theorems contain none).  As in the standard, a
   special-scheme URL with an empty host fails to parse, and a non-special
   scheme parses successfully as an opaque-path URL. -/

/-- Characters allowed after the first character of a URL scheme. -/
def isSchemeChar (c : Char) : Bool := c.isAlpha || c.isDigit || c = '+' || c = '-' || c = '.'

/-- Accumulate scheme characters until a ':' is found. -/
def schemeSplitAux : List Char → List Char → Option (List Char × List Char)
  | _, [] => none
  | acc, c :: rest =>
    if c = ':' then some (acc.reverse, rest)
    else if isSchemeChar c then schemeSplitAux (c :: acc) rest
    else none

/-- Split a leading `scheme:` off a character list (first char alphabetic). -/
def splitScheme : List Char → Option (List Char × List Char)
  | [] => none
  | c :: rest => if c.isAlpha then schemeSplitAux [c] rest else none

/-- The special schemes of the URL Standard. -/
def specialSchemes : List String := ["http", "https", "ws", "wss", "ftp", "file"]

structure SpecialUrl where
  scheme : String
  host : String
  pathq : String
  deriving DecidableEq

inductive JsUrl
  | special (u : SpecialUrl)
  | nonspecial (scheme rest : String)
  deriving DecidableEq

/-- The `toString()` / `href` serialisation. -/
def JsUrl.href : JsUrl → String
  | .special u => u.scheme ++ "://" ++ u.host ++ u.pathq
  | .nonspecial sch rest => sch ++ ":" ++ rest

/-- The `protocol` accessor (scheme plus ':'). -/
def JsUrl.protocol : JsUrl → String
  | .special u => u.scheme ++ ":"
  | .nonspecial sch _ => sch ++ ":"

/-- The `hostname` accessor (empty for opaque-path URLs). -/
def JsUrl.hostname : JsUrl → String
  | .special u => u.host
  | .nonspecial _ _ => ""

def isHostChar (c : Char) : Bool := c ≠ '/' && c ≠ '?' && c ≠ '#' && c ≠ ' '

/-- Parse `//host/path?query` (the part after `scheme:`) for a special
    scheme; fails when the host is empty or malformed, as the WHATWG
    parser throws there. -/
def parseSpecialRest (scheme : String) (rest : List Char) : Option JsUrl :=
  match rest with
  | '/' :: '/' :: tail =>
    let host := tail.takeWhile isHostChar
    let after := tail.drop host.length
    if host.isEmpty then none
    else if after.head? = some ' ' then none
    else
      let pathq := after.takeWhile (fun c => c ≠ '#')
      let pathq2 := if pathq.head? = some '/' then pathq else '/' :: pathq
      some (.special ⟨scheme, String.mk host, String.mk pathq2⟩)
  | _ => none

/-- Model of `new URL(input)` with no base: absolute URLs only. -/
def parseAbs (input : String) : Option JsUrl :=
  match splitScheme input.toList with
  | some (sch, rest) =>
    let schemeL := String.mk (sch.map Char.toLower)
    if specialSchemes.contains schemeL then parseSpecialRest schemeL rest
    else some (.nonspecial schemeL (String.mk rest))
  | none => none

/-- Directory part of a path: everything up to and including the last '/'. -/
def dirOf (p : List Char) : List Char := (p.reverse.dropWhile (fun c => c ≠ '/')).reverse

/-- Model of `new URL(input, base)`. -/
def parseURL (input : String) (base : Option String) : Option JsUrl :=
  match splitScheme input.toList with
  | some _ => parseAbs input
  | none =>
    match base with
    | none => none
    | some b =>
      match parseAbs b with
      | some (.special bu) =>
        match input.toList with
        | '/' :: '/' :: tail => parseSpecialRest bu.scheme ('/' :: '/' :: tail)
        | '/' :: more =>
          some (.special ⟨bu.scheme, bu.host,
            String.mk (('/' :: more).takeWhile (fun c => c ≠ '#'))⟩)
        | [] => some (.special bu)
        | other =>
          some (.special ⟨bu.scheme, bu.host,
            String.mk (dirOf bu.pathq.toList ++ other.takeWhile (fun c => c ≠ '#'))⟩)
      | _ => none

/-- The normalisation applied by the extraction pipelines (src/server.js
    lines 136–145, src/unnamed/part_002 `absUrl` composed with
    `stripQuery`): `new URL(u, base).toString()` with the query string
    stripped, `none` when the URL constructor throws. -/
def normalizeUrl (u base : String) : Option String :=
  (parseURL u (some base)).map (fun j => stripQuery j.href)

/- ===== Upstream responses seen by the image proxies ===== -/

/-- An upstream HTTP response as the proxies observe it: success flag
    (`r.ok` / HTTP status in the 200 range), optional content-type header,
    and the body bytes (modelled as a string). -/
structure Upstream where
  ok : Bool
  contentType : Option String
  body : String
  deriving DecidableEq

/-- Result of a proxy endpoint. -/
inductive ProxyResult
  | ok (ct buf : String)
  | blocked
  | err (msg : String)
  deriving DecidableEq

namespace V1

/-- src/server.js lines 69–75: accept `small.` or `/small` markers together
    with one of the four image extensions, on the lower-cased URL. -/
def isSmallImageUrl (u : String) : Bool :=
  let s := jsToLower u
  (strContains s "small." || strContains s "/small") &&
    (strContains s ".jpeg" || strContains s ".jpg" ||
      strContains s ".png" || strContains s ".webp")

/-- src/server.js lines 59–66: referer derived from the image URL itself,
    with a fixed fallback when the URL constructor throws. -/
def getRefererFromUrl (u : String) : String :=
  match parseAbs u with
  | some j => j.protocol ++ "//" ++ j.hostname ++ "/"
  | none => "https://yupoo.com/"

/-- src/server.js lines 198–231, response classification of the
    browser-context /img proxy (lines 215–227): default the content-type to
    image/jpeg, then treat a `text/html` content-type or a `<!doctype` in
    the first 120 lower-cased body bytes as blocked (403). -/
def imgProxy (u : Upstream) : ProxyResult :=
  let ct := u.contentType.getD "image/jpeg"
  if strContains ct "text/html" ||
      strContains (jsToLower (strTake 120 u.body)) "<!doctype" then .blocked
  else .ok ct u.body

/-- Result of the /api/yupoo listing endpoint. -/
inductive ApiResult
  | ok (images : List String) (cached : Bool)
  | err (status : Nat)
  deriving DecidableEq

/-- src/server.js lines 153–195: the /api/yupoo handler.  `cachedVal` is
    what `redis.get` would return, `extracted` what `extractSmall` would
    return.  When redis is not configured the cache is skipped entirely and
    the handler re-extracts. -/
def apiYupoo (redisPresent : Bool) (cachedVal : Option (List String))
    (extracted : List String) : ApiResult :=
  match redisPresent, cachedVal with
  | true, some l => if l.isEmpty then .ok extracted false else .ok l true
  | _, _ => .ok extracted false

end V1

namespace V2

/-- src/server.js lines 300–306: require `small.` plus one of the four
    image extensions, all as substrings of the lower-cased URL. -/
def isSmall (u : String) : Bool :=
  let s := jsToLower u
  strContains s "small." &&
    (strContains s ".jpeg" || strContains s ".jpg" ||
      strContains s ".png" || strContains s ".webp")

/-- src/server.js lines 417–422: referer candidates of fetchImageWithRetry.
    The origin hint (plus a trailing '/') when non-empty, then always the
    generic fallback. -/
def refererCandidates (origin : String) : List String :=
  (if origin ≠ "" then [origin ++ "/"] else []) ++ ["https://yupoo.com/"]

/-- src/server.js lines 426–459, one attempt of the inner loop body: a
    thrown fetch surfaces as `error`; a non-2xx status is recorded and the
    loop continues; an HTTP-success response is classified as blocked when
    its content-type (defaulted to image/jpeg) contains `text/html` or its
    first 140 lower-cased body bytes contain `<!doctype` or `<html`;
    otherwise it is the successful result. -/
def attemptStep (r : Except String Upstream) : Except String (String × String) :=
  match r with
  | .error e => .error e
  | .ok u =>
    if !u.ok then .error "Upstream status"
    else
      let ct := u.contentType.getD "image/jpeg"
      let head := jsToLower (strTake 140 u.body)
      if strContains ct "text/html" || strContains head "<!doctype" ||
          strContains head "<html" then .error "Blocked (HTML returned)"
      else .ok (ct, u.body)

/-- The inner `for (const ref of referers)` loop: try each candidate in
    order, return at the first success, thread the last error through. -/
def tryRefs (resp : String → Except String (String × String)) :
    List String → Option String → Sum (String × String) (Option String)
  | [], le => .inr le
  | ref :: rest, _ =>
    match resp ref with
    | .ok v => .inl v
    | .error e => tryRefs resp rest (some e)

/-- The outer `for (let a = 0; a < attempts; a++)` loop. -/
def tryAttempts (resp : Nat → String → Except String (String × String))
    (refs : List String) : Nat → Nat → Option String → Sum (String × String) (Option String)
  | _, 0, le => .inr le
  | a, n + 1, le =>
    match tryRefs (resp a) refs le with
    | .inl v => .inl v
    | .inr le2 => tryAttempts resp refs (a + 1) n le2

/-- Result of fetchImageWithRetry. -/
inductive FetchResult
  | ok (ct buf : String)
  | err (msg : String)
  deriving DecidableEq

/-- src/server.js lines 410–463: fetchImageWithRetry.  `net a ref` is the
    upstream response of attempt `a` with referer `ref` (`Except.error` for
    a thrown fetch / abort). -/
def fetchImageWithRetry (net : Nat → String → Except String Upstream)
    (origin : String) (attempts : Nat) : FetchResult :=
  match tryAttempts (fun a ref => attemptStep (net a ref))
      (refererCandidates origin) 0 attempts none with
  | .inl (ct, buf) => .ok ct buf
  | .inr le => .err (le.getD "Unknown error")

end V2

namespace P1

/-- src/unnamed/part_001 lines 42–44: the marker test is on the lower-cased
    URL, but the extension test is `u.endsWith(...)` on the original
    casing. -/
def isSmall (u : String) : Bool :=
  strContains (jsToLower u) "small." &&
    (strEndsWith u ".jpeg" || strEndsWith u ".jpg" ||
      strEndsWith u ".png" || strEndsWith u ".webp")

/-- Result of the part_001 /img handler. -/
inductive ImgResult
  | ok (ct buf : String)
  | upstreamError
  deriving DecidableEq

/-- src/unnamed/part_001 lines 132–154: the passthrough /img proxy.  A
    non-2xx status is a 502; any HTTP-success body is served as-is with the
    content-type defaulted to image/jpeg — there is no HTML/doctype
    classification in this variant. -/
def imgHandler (u : Upstream) : ImgResult :=
  if !u.ok then .upstreamError
  else .ok (u.contentType.getD "image/jpeg") u.body

end P1

namespace W

/-- src/unnamed/part_002 lines 67–68: the single referer of the worker's
    /img branch — the `ref` query parameter when present and non-empty,
    otherwise a generic fallback. -/
def refOf (ref : Option String) : String :=
  match ref with
  | none => "https://www.google.com/"
  | some r => if r = "" then "https://www.google.com/" else r

/-- src/unnamed/part_002 lines 91–98: content-type defaulted to image/jpeg,
    then blocked when it contains `text/html` or the first 120 raw body
    bytes contain `<!DOCTYPE` (case-sensitive in this variant). -/
def imgFetch (u : Upstream) : ProxyResult :=
  let ct := u.contentType.getD "image/jpeg"
  if strContains ct "text/html" || strContains (strTake 120 u.body) "<!DOCTYPE" then .blocked
  else .ok ct u.body

end W

/- ===== The extraction run body =====

   Both progressive variants wrap the awaited statements of the run in a
   try whose catch swallows the exception, and release the RUNNING entry
   after the body (src/server.js in a finally, src/unnamed/part_001 on the
   line after the catch).  A run execution is determined by the index `k`
   of the first awaited statement that throws (`k ≥ length` when none
   does): statements before index `k` are executed, the failing one has no
   effect, the rest are skipped. -/

inductive RunEff
  | skip
  | markDone
  deriving DecidableEq

structure RunState where
  running : List String
  done : Bool
  deriving DecidableEq

def applyEff : RunEff → RunState → RunState
  | .skip, s => s
  | .markDone, s => { s with done := true }

/-- Execute the statements of a run body up to the first failure index
    `k`; the boolean records whether an exception occurred. -/
def execBody : List RunEff → Nat → RunState → RunState × Bool
  | [], _, s => (s, false)
  | _ :: _, 0, s => (s, true)
  | e :: rest, Nat.succ k, s => execBody rest k (applyEff e s)

namespace V2

/-- Abortable awaited statements of scrapeAlbumProgressive's try block
    (src/server.js lines 323–365), in source order: ensureBrowser (324),
    context.newPage (325), page.goto (336), waitForTimeout 1200 (341),
    scroll to bottom (343), waitForTimeout 1200 (344), scroll to top (345),
    waitForTimeout 600 (346), page.close (364), redis.set of the done key
    (365).  The inner try/catch around waitForLoadState (338–340) and
    around the performance sweep (349–362) swallow their own failures and
    cannot abort the run, so they are not failure points here.  The done
    write is the last abortable statement. -/
def runBody : List RunEff :=
  [.skip, .skip, .skip, .skip, .skip, .skip, .skip, .skip, .skip, .markDone]

/-- src/server.js lines 317–371: scrapeAlbumProgressive.  The guard
    (lines 319–321) tests RUNNING membership and inserts with no
    suspension point in between; the try body runs; the catch (366–367)
    swallows; the finally (368–370) releases the RUNNING entry.  Returns
    the resulting state and whether the run terminated by exception. -/
def scrapeRun (id : String) (k : Nat) (s : RunState) : RunState × Bool :=
  if id ∈ s.running then (s, false)
  else
    let r := execBody runBody k { s with running := id :: s.running }
    ({ r.1 with running := r.1.running.erase id }, r.2)

end V2

namespace P1

/-- Abortable awaited statements of scrapeAlbum's try block
    (src/unnamed/part_001 lines 61–79), in source order: ensureBrowser
    (62), context.newPage (63), page.goto (73), waitForTimeout 1200 (74),
    scroll evaluate (75), waitForTimeout 1200 (76), redis.set of the done
    key (78), page.close (79).  In this variant the done write precedes
    the final page.close. -/
def runBody : List RunEff :=
  [.skip, .skip, .skip, .skip, .skip, .skip, .markDone, .skip]

/-- src/unnamed/part_001 lines 57–82: scrapeAlbum.  Guard on lines 58–59
    (atomic membership test plus insert), swallowing catch on line 80,
    RUNNING release on line 81 (reached on both exits since the catch
    swallows). -/
def scrapeAlbum (id : String) (k : Nat) (s : RunState) : RunState × Bool :=
  if id ∈ s.running then (s, false)
  else
    let r := execBody runBody k { s with running := id :: s.running }
    ({ r.1 with running := r.1.running.erase id }, r.2)

end P1

/- ===== Interleaving model of the progressive coordinator =====

   State and atomic steps of the "progressive" server (src/server.js
   second half).  Each step is one synchronous segment of the JavaScript
   event loop; the effect of an awaited redis operation happens at the
   step of the task that issued it, and a task resumes in a later step
   with the value that operation returned.  Concretely:

   * `readDone g` — a /api/yupoo/progress request executes
     `await redis.get(doneKey(albumUrl))` (line 382); the value read is
     remembered with the request (`pending`).
   * `dispatch g b` — that request resumes with the remembered value `b`
     and runs `if (!done && !RUNNING.has(albumUrl)) setTimeout(...)`
     (lines 383–385); the scheduled scrapeAlbumProgressive call is queued.
   * `startRun g` — a queued scrapeAlbumProgressive call executes its
     guard (lines 319–321): if the identifier is in RUNNING it returns
     immediately, otherwise it inserts the identifier and the run becomes
     active (`active` is the instrumented count of live runs).
   * `record g u` — the page's response handler of the active run fires
     on a discovered URL and issues `redis.sadd` (lines 327–334).  The
     listener is an un-awaited async callback: issuing the write and the
     write landing at the store are separate events, so the issued write
     is held in `inflight`.
   * `commit g u` — an issued `redis.sadd` lands at the store (an
     idempotent set insert).  Nothing orders this REST call against the
     rest of the run: it may land at any later step, including after the
     done write and the RUNNING release of `finishOk`.
   * `finishOk g` — the run completes: the done key is written (line 365)
     and the finally releases the RUNNING entry (lines 368–370).
   * `finishErr g` — the run aborts by exception: the catch swallows it
     (366–367) and the finally releases the RUNNING entry; done is not
     written.

   `step` returns `none` when the step's precondition fails, i.e. the
   label does not correspond to a transition the program can take. -/

def insertIfNew (u : String) (l : List String) : List String :=
  if u ∈ l then l else u :: l

structure Sys where
  running : List String
  active : String → Nat
  cache : String → List String
  done : String → Bool
  pending : List (String × Bool)
  queued : List String
  inflight : List (String × String)

def initSys : Sys :=
  { running := [], active := fun _ => 0, cache := fun _ => [],
    done := fun _ => false, pending := [], queued := [], inflight := [] }

inductive Act
  | readDone (g : String)
  | dispatch (g : String) (b : Bool)
  | startRun (g : String)
  | record (g u : String)
  | commit (g u : String)
  | finishOk (g : String)
  | finishErr (g : String)

def step (s : Sys) : Act → Option Sys
  | .readDone g => some { s with pending := (g, s.done g) :: s.pending }
  | .dispatch g b =>
    if (g, b) ∈ s.pending then
      some { s with
        pending := s.pending.erase (g, b),
        queued := if b = false ∧ g ∉ s.running then g :: s.queued else s.queued }
    else none
  | .startRun g =>
    if g ∈ s.queued then
      if g ∈ s.running then some { s with queued := s.queued.erase g }
      else some { s with
        queued := s.queued.erase g,
        running := g :: s.running,
        active := fun h => if h = g then s.active h + 1 else s.active h }
    else none
  | .record g u =>
    if 0 < s.active g then
      some { s with inflight := (g, u) :: s.inflight }
    else none
  | .commit g u =>
    if (g, u) ∈ s.inflight then
      some { s with
        inflight := s.inflight.erase (g, u),
        cache := fun h => if h = g then insertIfNew u (s.cache h) else s.cache h }
    else none
  | .finishOk g =>
    if 0 < s.active g then
      some { s with
        done := fun h => if h = g then true else s.done h,
        running := s.running.erase g,
        active := fun h => if h = g then s.active h - 1 else s.active h }
    else none
  | .finishErr g =>
    if 0 < s.active g then
      some { s with
        running := s.running.erase g,
        active := fun h => if h = g then s.active h - 1 else s.active h }
    else none

def runTraceFrom (s : Sys) : List Act → Option Sys
  | [] => some s
  | a :: tr =>
    match step s a with
    | some s2 => runTraceFrom s2 tr
    | none => none

def runTrace (tr : List Act) : Option Sys := runTraceFrom initSys tr

/- ===== Endpoint models ===== -/

/-- Outcome of the request-level guards of a handler: either the request
    proceeds, or it is rejected with an HTTP status and message. -/
inductive GateResult
  | pass
  | reject (status : Nat) (msg : String)
  deriving DecidableEq

namespace V2

/-- src/server.js lines 374–407: the request-level outcomes of
    /api/yupoo/progress.  A missing url is a 400; an absent redis client
    is a 500 "Redis not configured" (line 379); an exception from any
    awaited cache operation inside the try is caught at line 404 and
    surfaces as a 500 with the stringified error. -/
def progressGate (redisPresent : Bool) (albumUrl : Option String)
    (cacheErr : Option String) : GateResult :=
  match albumUrl with
  | none => .reject 400 "Missing url"
  | some _ =>
    if !redisPresent then .reject 500 "Redis not configured"
    else
      match cacheErr with
      | some e => .reject 500 e
      | none => .pass

/-- src/server.js lines 327–334: the page response handler.  The URL is
    query-stripped and classified; the `redis.sadd` sits in the handler's
    own try/catch, so a failing cache write (`saddOk = false`) is
    swallowed and leaves the set unchanged. -/
def responseHandler (saddOk : Bool) (cache : List String) (u : String) : List String :=
  if isSmall (stripQuery u) then
    (if saddOk then insertIfNew (stripQuery u) cache else cache)
  else cache

end V2

/- ===== The /api/yupoo/progress response shape ===== -/

/-- Lexicographic comparison of character lists by code point; on the
    ASCII data handled here this is exactly the code-unit comparison
    JavaScript's default `Array.prototype.sort()` uses for strings. -/
def lexLe : List Char → List Char → Bool
  | [], _ => true
  | _ :: _, [] => false
  | a :: as, b :: bs => if a < b then true else if b < a then false else lexLe as bs

/-- The string order used by the sort. -/
def strLeB (a b : String) : Bool := lexLe a.toList b.toList

/-- Stable insertion sort with the lexicographic order on strings; model
    of JavaScript `originals.sort()`. -/
def insertSorted (x : String) : List String → List String
  | [] => [x]
  | y :: ys => if strLeB x y then x :: y :: ys else y :: insertSorted x ys

def sortStrings : List String → List String
  | [] => []
  | x :: xs => insertSorted x (sortStrings xs)

/-- Leading digits of a character list as a number, `none` when there is
    no leading digit. -/
def digitsVal (l : List Char) : Option Nat :=
  let ds := l.takeWhile Char.isDigit
  if ds.isEmpty then none
  else some (ds.foldl (fun a c => a * 10 + (c.toNat - 48)) 0)

/-- JS `parseInt(s, 10)`: an optional sign followed by a digit prefix
    (trailing junk ignored), NaN — modelled as `none` — otherwise.
    Leading whitespace is not modelled. -/
def jsParseInt (s : String) : Option Int :=
  match s.toList with
  | '-' :: rest => (digitsVal rest).map (fun n => -(n : Int))
  | '+' :: rest => (digitsVal rest).map (fun n => (n : Int))
  | l => (digitsVal l).map (fun n => (n : Int))

/-- JS `l.slice(0, e)`: a negative end counts from the end of the array,
    and the result is clamped to the array bounds. -/
def jsSliceTo (l : List String) (e : Int) : List String :=
  if e < 0 then l.take ((l.length : Int) + e).toNat else l.take e.toNat

structure ProgressPayload where
  done : Bool
  count : Nat
  imagesOriginal : List String
  deriving DecidableEq

namespace V2

/-- src/server.js line 376: `Math.min(parseInt(req.query.limit || "300",
    10) || 300, 800)`.  An absent or empty parameter falls back to the
    string "300"; an unparsable or zero parse falls back to 300; the
    result is clamped to at most 800. -/
def effLimit (lp : Option String) : Int :=
  let s := match lp with
    | none => "300"
    | some v => if v = "" then "300" else v
  let n : Int := match jsParseInt s with
    | none => 300
    | some k => if k = 0 then 300 else k
  min n 800

/-- src/server.js lines 388–403: the response of /api/yupoo/progress.
    The stored set members are sorted in place, `count` is the full sorted
    length, and only the returned list is cut to the limit. -/
def progressPayload (stored : List String) (doneFlag : Bool)
    (lp : Option String) : ProgressPayload :=
  let originals := sortStrings stored
  { done := doneFlag,
    count := originals.length,
    imagesOriginal := jsSliceTo originals (effLimit lp) }

end V2

namespace P1

structure Payload where
  done : Bool
  imagesOriginal : List String
  deriving DecidableEq

/-- src/unnamed/part_001 lines 107–129: the progress response of this
    variant sorts the stored members and returns all of them; there is no
    limit parameter and no count field. -/
def progressPayload (stored : List String) (doneFlag : Bool) : Payload :=
  { done := doneFlag, imagesOriginal := sortStrings stored }

end P1

/- ===== Concrete traces and states used by the theorems ===== -/

/-- Two /api/yupoo/progress requests for the same album fire
    simultaneously: both read done = false, both resume and schedule a
    scrapeAlbumProgressive call, and both scheduled calls then execute
    their guard.  Only the first becomes an active run. -/
def demoTrace : List Act :=
  [.readDone "album1", .readDone "album1", .dispatch "album1" false,
   .dispatch "album1" false, .startRun "album1", .startRun "album1"]

/-- A state whose queued scrape call finds the album already in RUNNING. -/
def demoSysBusy : Sys := { initSys with queued := ["album1"], running := ["album1"] }

/-- A state whose queued scrape call finds the album not in RUNNING. -/
def demoSysIdle : Sys := { initSys with queued := ["album1"] }

/-- The run-coordination invariant: the instrumented run counter of every
    gallery never exceeds one, and a live run holds its RUNNING entry. -/
def InvRun (s : Sys) : Prop :=
  ∀ g, s.active g ≤ 1 ∧ (0 < s.active g → g ∈ s.running)

/- ===================================================================
   Theorems
   =================================================================== -/

/- ----- string-level helper lemmas ----- -/

theorem listContains_iff (hay needle : List Char) :
    listContains hay needle = true ↔ needle <:+: hay := by
  induction hay with
  | nil => simp [listContains, List.infix_nil, List.isEmpty_iff]
  | cons c rest ih =>
    simp only [listContains, Bool.or_eq_true, ih, List.isPrefixOf_iff_prefix]
    exact (List.infix_cons_iff).symm

theorem strContains_iff (hay needle : String) :
    strContains hay needle = true ↔ needle.toList <:+: hay.toList := by
  simpa [strContains] using listContains_iff hay.toList needle.toList

theorem strEndsWith_iff (s pat : String) :
    strEndsWith s pat = true ↔ pat.toList <:+ s.toList := by
  rw [strEndsWith, List.isPrefixOf_iff_prefix]
  exact List.reverse_prefix

theorem toList_jsToLower (s : String) :
    (jsToLower s).toList = s.toList.map Char.toLower := rfl

/-- An original-case suffix that is already lower-case is a substring of
    the lower-cased string. -/
theorem strContains_lower_of_endsWith (u pat : String)
    (h : strEndsWith u pat = true)
    (hpat : pat.toList.map Char.toLower = pat.toList) :
    strContains (jsToLower u) pat = true := by
  rw [strContains_iff, toList_jsToLower]
  have hsuf : pat.toList <:+ u.toList := (strEndsWith_iff u pat).mp h
  have : pat.toList.map Char.toLower <:+ u.toList.map Char.toLower :=
    List.IsSuffix.map Char.toLower hsuf
  rw [hpat] at this
  exact this.isInfix

/- ----- C5 ----- -/

/-- C5 (counterexample): the claim asserts the classifier's decision never
    depends on the letter case of the URL, but the scrapeAlbum variant's
    isSmall tests the extension suffix on the original casing: the two
    URLs below differ only in case yet are classified differently. -/
theorem c5_counterexample :
    P1.isSmall "pic_small.jpeg" = true ∧ P1.isSmall "PIC_SMALL.JPEG" = false ∧
    jsToLower "PIC_SMALL.JPEG" = jsToLower "pic_small.jpeg" := by decide

/-- C5 (amended): the server.js classifiers decide only from the
    lower-cased URL, hence case-insensitively, and each accepts exactly a
    "small" marker together with one of the four image extensions;
    whatever the strictest variant (scrapeAlbum's isSmall, whose extension
    test is a case-sensitive suffix match) accepts is also accepted by the
    substring-tier classifiers. -/
theorem c5_classifier_amended :
    (∀ u v, jsToLower u = jsToLower v → V1.isSmallImageUrl u = V1.isSmallImageUrl v) ∧
    (∀ u v, jsToLower u = jsToLower v → V2.isSmall u = V2.isSmall v) ∧
    (∀ u, V2.isSmall u = true → V1.isSmallImageUrl u = true) ∧
    (∀ u, P1.isSmall u = true → V2.isSmall u = true) := by
  refine ⟨?_, ?_, ?_, ?_⟩
  · intro u v h; simp only [V1.isSmallImageUrl]; rw [h]
  · intro u v h; simp only [V2.isSmall]; rw [h]
  · intro u h
    simp only [V2.isSmall, Bool.and_eq_true, Bool.or_eq_true] at h
    simp only [V1.isSmallImageUrl, Bool.and_eq_true, Bool.or_eq_true]
    exact ⟨Or.inl h.1, h.2⟩
  · intro u h
    simp only [P1.isSmall, Bool.and_eq_true, Bool.or_eq_true] at h
    simp only [V2.isSmall, Bool.and_eq_true, Bool.or_eq_true]
    refine ⟨h.1, ?_⟩
    rcases h.2 with ((h2 | h2) | h2) | h2
    · exact Or.inl (Or.inl (Or.inl (strContains_lower_of_endsWith u ".jpeg" h2 (by decide))))
    · exact Or.inl (Or.inl (Or.inr (strContains_lower_of_endsWith u ".jpg" h2 (by decide))))
    · exact Or.inl (Or.inr (strContains_lower_of_endsWith u ".png" h2 (by decide)))
    · exact Or.inr (strContains_lower_of_endsWith u ".webp" h2 (by decide))

theorem c5_witness :
    V2.isSmall "A_SMALL.JPEG" = V2.isSmall "a_small.jpeg" ∧
    V1.isSmallImageUrl "A_SMALL.JPEG" = V1.isSmallImageUrl "a_small.jpeg" ∧
    V1.isSmallImageUrl "x/a_small.jpeg" = true ∧
    V2.isSmall "x/a_small.jpeg" = true :=
  ⟨c5_classifier_amended.2.1 "A_SMALL.JPEG" "a_small.jpeg" (by decide),
   c5_classifier_amended.1 "A_SMALL.JPEG" "a_small.jpeg" (by decide),
   c5_classifier_amended.2.2.1 "x/a_small.jpeg" (by decide),
   c5_classifier_amended.2.2.2 "x/a_small.jpeg" (by decide)⟩

/- ----- C6 ----- -/

/-- Normalised URLs never carry a query string. -/
theorem stripQuery_no_query (u : String) : strContains (stripQuery u) "?" = false := by
  by_contra hne
  have htrue : strContains (stripQuery u) "?" = true := by
    cases h : strContains (stripQuery u) "?"
    · exact absurd h hne
    · rfl
  have hinf : ("?" : String).toList <:+: (stripQuery u).toList :=
    (strContains_iff _ _).mp htrue
  have hmem : '?' ∈ (stripQuery u).toList := hinf.subset (by decide)
  have hmem2 : '?' ∈ List.takeWhile (fun c => decide (c ≠ '?')) u.toList := hmem
  have hp := List.mem_takeWhile_imp hmem2
  simp at hp

/-- C6 (counterexample): `new URL("javascript:void(0)", base)` does not
    throw — a non-special scheme parses as an opaque-path URL — so the
    pipeline's normalisation returns the URL itself, not null as the claim
    states. -/
theorem c6_counterexample :
    (normalizeUrl "javascript:void(0)" "https://h/c").isSome = true := by decide

/-- C6 (amended): normalisation resolves relative URLs against the page's
    base, strips the query string, and returns null when the URL
    constructor throws; the claimed concrete resolution holds and the
    classifier accepts its result, but `javascript:void(0)` normalises to
    itself (it is excluded later by the classifier, not by normalize),
    while a genuinely malformed input such as `https://` (empty host on a
    special scheme) yields null. -/
theorem c6_normalize_amended :
    normalizeUrl "/a/b/pic_small.jpeg?x=1" "https://h/c" = some "https://h/a/b/pic_small.jpeg" ∧
    V1.isSmallImageUrl "https://h/a/b/pic_small.jpeg" = true ∧
    normalizeUrl "javascript:void(0)" "https://h/c" = some "javascript:void(0)" ∧
    normalizeUrl "https://" "https://h/c" = none ∧
    (∀ u b r, normalizeUrl u b = some r → strContains r "?" = false) ∧
    (∀ u b, parseURL u (some b) = none → normalizeUrl u b = none) := by
  refine ⟨by decide, by decide, by decide, by decide, ?_, ?_⟩
  · intro u b r h
    rcases hp : parseURL u (some b) with _ | j
    · rw [normalizeUrl, hp] at h; cases h
    · rw [normalizeUrl, hp] at h
      cases h
      exact stripQuery_no_query _
  · intro u b h
    rw [normalizeUrl, h]
    rfl

theorem c6_witness :
    strContains "https://h/a/b/pic_small.jpeg" "?" = false ∧
    normalizeUrl "ht tp" "nobase" = none :=
  ⟨c6_normalize_amended.2.2.2.2.1 "/a/b/pic_small.jpeg?x=1" "https://h/c"
      "https://h/a/b/pic_small.jpeg" (by decide),
   c6_normalize_amended.2.2.2.2.2 "ht tp" "nobase" (by decide)⟩

/- ----- C9 ----- -/

/-- C9 (counterexample): the claim says that with no explicit hint the
    fetcher tries `scheme://host/` derived from the image URL itself
    before the generic fallback; fetchImageWithRetry's candidate list with
    an empty origin hint is only the generic fallback — the derived
    referer (which getRefererFromUrl would produce, and which only the
    single-candidate browser-context proxy of the first server variant
    uses) is absent. -/
theorem c9_counterexample :
    V2.refererCandidates "" = ["https://yupoo.com/"] ∧
    V1.getRefererFromUrl "https://photo.yupoo.com/albums/a_small.jpeg" =
      "https://photo.yupoo.com/" ∧
    "https://photo.yupoo.com/" ∉ V2.refererCandidates "" := by decide

/-- C9 (amended): fetchImageWithRetry's ordered candidate list is the
    origin hint (with a trailing slash) when supplied followed by the
    generic fallback, and just the generic fallback otherwise; candidates
    are tried in order and a success returns immediately.  The
    `scheme://host/` derivation from the image URL exists only in the
    first server variant's browser-context proxy, which uses it as its
    single referer; the worker variant uses the hint or a generic
    fallback. -/
theorem c9_referers_amended :
    (∀ o, o ≠ "" → V2.refererCandidates o = [o ++ "/", "https://yupoo.com/"]) ∧
    V2.refererCandidates "" = ["https://yupoo.com/"] ∧
    (∀ resp (ref : String) rest le v, resp ref = Except.ok v →
      V2.tryRefs resp (ref :: rest) le = .inl v) ∧
    (∀ u j, parseAbs u = some j →
      V1.getRefererFromUrl u = j.protocol ++ "//" ++ j.hostname ++ "/") ∧
    W.refOf none = "https://www.google.com/" ∧
    (∀ r, r ≠ "" → W.refOf (some r) = r) := by
  refine ⟨?_, by decide, ?_, ?_, rfl, ?_⟩
  · intro o ho; simp [V2.refererCandidates, ho]
  · intro resp ref rest le v h; simp [V2.tryRefs, h]
  · intro u j h; simp [V1.getRefererFromUrl, h]
  · intro r hr; simp [W.refOf, hr]

theorem c9_witness :
    V2.refererCandidates "https://shop.x.yupoo.com" =
      ["https://shop.x.yupoo.com" ++ "/", "https://yupoo.com/"] ∧
    V2.tryRefs (fun _ => Except.ok ("image/jpeg", "bytes"))
      ["https://shop.x.yupoo.com/", "https://yupoo.com/"] none =
      .inl ("image/jpeg", "bytes") ∧
    V1.getRefererFromUrl "https://photo.yupoo.com/a/b_small.jpeg" =
      (JsUrl.special ⟨"https", "photo.yupoo.com", "/a/b_small.jpeg"⟩).protocol ++ "//" ++
        (JsUrl.special ⟨"https", "photo.yupoo.com", "/a/b_small.jpeg"⟩).hostname ++ "/" ∧
    W.refOf (some "https://a.b/") = "https://a.b/" :=
  ⟨c9_referers_amended.1 "https://shop.x.yupoo.com" (by decide),
   c9_referers_amended.2.2.1 (fun _ => Except.ok ("image/jpeg", "bytes"))
     "https://shop.x.yupoo.com/" ["https://yupoo.com/"] none ("image/jpeg", "bytes") rfl,
   c9_referers_amended.2.2.2.1 "https://photo.yupoo.com/a/b_small.jpeg"
     (JsUrl.special ⟨"https", "photo.yupoo.com", "/a/b_small.jpeg"⟩) (by decide),
   c9_referers_amended.2.2.2.2.2 "https://a.b/" (by decide)⟩

/- ----- C4 helper lemmas ----- -/

/-- Whatever attemptStep returns as a success passed the HTML sniff. -/
theorem attemptStep_ok_not_html {r : Except String Upstream} {ct buf : String}
    (h : V2.attemptStep r = Except.ok (ct, buf)) :
    strContains ct "text/html" = false ∧
    strContains (jsToLower (strTake 140 buf)) "<!doctype" = false ∧
    strContains (jsToLower (strTake 140 buf)) "<html" = false := by
  match r with
  | .error e => simp [V2.attemptStep] at h
  | .ok u =>
    simp only [V2.attemptStep] at h
    split at h
    · simp at h
    · split at h
      · simp at h
      · rename_i hcond
        rw [Except.ok.injEq, Prod.mk.injEq] at h
        obtain ⟨hct, hbuf⟩ := h
        rw [← hct, ← hbuf]
        obtain ⟨⟨h1, h2⟩, h3⟩ : (strContains (u.contentType.getD "image/jpeg") "text/html" = false ∧
            strContains (jsToLower (strTake 140 u.body)) "<!doctype" = false) ∧
            strContains (jsToLower (strTake 140 u.body)) "<html" = false := by
          simpa [not_or] using hcond
        exact ⟨h1, h2, h3⟩

/-- A success of the referer loop comes from some tried candidate. -/
theorem tryRefs_inl {resp : String → Except String (String × String)} :
    ∀ refs le v, V2.tryRefs resp refs le = .inl v →
      ∃ ref, ref ∈ refs ∧ resp ref = Except.ok v := by
  intro refs
  induction refs with
  | nil => intro le v h; simp [V2.tryRefs] at h
  | cons ref rest ih =>
    intro le v h
    cases hr : resp ref with
    | ok w =>
      simp only [V2.tryRefs, hr] at h
      rw [Sum.inl.injEq] at h
      exact ⟨ref, List.mem_cons_self ref rest, by rw [hr, h]⟩
    | error e =>
      simp only [V2.tryRefs, hr] at h
      obtain ⟨r2, hm, hok⟩ := ih (some e) v h
      exact ⟨r2, List.mem_cons_of_mem ref hm, hok⟩

/-- A success of the attempt loop comes from some tried candidate. -/
theorem tryAttempts_inl {resp : Nat → String → Except String (String × String)}
    {refs : List String} :
    ∀ n a le v, V2.tryAttempts resp refs a n le = .inl v →
      ∃ a2 ref, ref ∈ refs ∧ resp a2 ref = Except.ok v := by
  intro n
  induction n with
  | zero => intro a le v h; simp [V2.tryAttempts] at h
  | succ m ih =>
    intro a le v h
    cases ht : V2.tryRefs (resp a) refs le with
    | inl w =>
      simp only [V2.tryAttempts, ht] at h
      rw [Sum.inl.injEq] at h
      obtain ⟨ref, hm, hok⟩ := tryRefs_inl refs le w ht
      exact ⟨a, ref, hm, by rw [hok, h]⟩
    | inr le2 =>
      simp only [V2.tryAttempts, ht] at h
      exact ih (a + 1) le2 v h

/- ----- C4 ----- -/

/-- C4 (counterexample): the claim covers every proxy fetch, but the
    scrapeAlbum variant's /img endpoint performs no content sniffing: an
    HTTP-success upstream response whose content-type is text/html and
    whose body opens with an HTML doctype is returned as a successful
    response with those very bytes. -/
theorem c4_counterexample :
    P1.imgHandler ⟨true, some "text/html", "<!doctype html><html>Restricted Access</html>"⟩ =
    .ok "text/html" "<!doctype html><html>Restricted Access</html>" := rfl

/-- C4 (amended): in fetchImageWithRetry an HTTP-success upstream response
    whose content-type contains text/html or whose first 140 lower-cased
    body bytes contain the doctype marker is classified blocked, the loop
    then proceeds to the next referer candidate, and any overall success
    passed the sniff; the first server variant's browser-context proxy
    classifies the same way (120 bytes); the scrapeAlbum variant's /img,
    however, returns any HTTP-success body as-is without sniffing. -/
theorem c4_blocked_classification_amended :
    (∀ u : Upstream, u.ok = true →
      (strContains (u.contentType.getD "image/jpeg") "text/html" = true ∨
        strContains (jsToLower (strTake 140 u.body)) "<!doctype" = true) →
      V2.attemptStep (.ok u) = .error "Blocked (HTML returned)") ∧
    (∀ resp (ref : String) rest le e, resp ref = Except.error e →
      V2.tryRefs resp (ref :: rest) le = V2.tryRefs resp rest (some e)) ∧
    (∀ net origin attempts ct buf,
      V2.fetchImageWithRetry net origin attempts = .ok ct buf →
      strContains ct "text/html" = false ∧
      strContains (jsToLower (strTake 140 buf)) "<!doctype" = false) ∧
    (∀ u : Upstream,
      (strContains (u.contentType.getD "image/jpeg") "text/html" = true ∨
        strContains (jsToLower (strTake 120 u.body)) "<!doctype" = true) →
      V1.imgProxy u = .blocked) ∧
    (∀ u : Upstream, u.ok = true →
      P1.imgHandler u = .ok (u.contentType.getD "image/jpeg") u.body) := by
  refine ⟨?_, ?_, ?_, ?_, ?_⟩
  · intro u hok hcond
    simp only [V2.attemptStep, hok]
    rcases hcond with hc | hc <;> simp [hc]
  · intro resp ref rest le e h
    simp [V2.tryRefs, h]
  · intro net origin attempts ct buf h
    simp only [V2.fetchImageWithRetry] at h
    cases ht : V2.tryAttempts (fun a ref => V2.attemptStep (net a ref))
        (V2.refererCandidates origin) 0 attempts none with
    | inl v =>
      rw [ht] at h
      obtain ⟨a2, ref, _, hok⟩ :=
        tryAttempts_inl attempts 0 none v ht
      obtain ⟨h1, h2, _⟩ := attemptStep_ok_not_html hok
      cases hv : v with
      | mk vct vbuf =>
        rw [hv] at h
        simp only [V2.FetchResult.ok.injEq] at h
        rw [hv] at h1 h2
        rw [← h.1, ← h.2]
        exact ⟨h1, h2⟩
    | inr le2 =>
      rw [ht] at h
      simp at h
  · intro u hcond
    rcases hcond with hc | hc <;> simp [V1.imgProxy, hc]
  · intro u hok
    simp [P1.imgHandler, hok]

theorem c4_witness :
    V2.attemptStep (.ok { ok := true, contentType := some "text/html", body := "x" }) =
      .error "Blocked (HTML returned)" ∧
    V2.tryRefs (fun _ => Except.error "boom") ["r1", "r2"] none =
      V2.tryRefs (fun _ => Except.error "boom") ["r2"] (some "boom") ∧
    (strContains "image/jpeg" "text/html" = false ∧
      strContains (jsToLower (strTake 140 "bytes")) "<!doctype" = false) ∧
    V1.imgProxy { ok := true, contentType := none, body := "<!DOCTYPE html>" } = .blocked ∧
    P1.imgHandler { ok := true, contentType := none, body := "bytes" } =
      .ok (Option.getD none "image/jpeg") "bytes" :=
  ⟨c4_blocked_classification_amended.1 _ rfl (Or.inl (by decide)),
   c4_blocked_classification_amended.2.1 (fun _ => Except.error "boom") "r1" ["r2"] none "boom" rfl,
   c4_blocked_classification_amended.2.2.1 (fun _ _ => Except.ok ⟨true, none, "bytes"⟩)
     "" 2 "image/jpeg" "bytes" rfl,
   c4_blocked_classification_amended.2.2.2.1 _ (Or.inr (by decide)),
   c4_blocked_classification_amended.2.2.2.2 _ rfl⟩

/- ----- C10 ----- -/

/-- C10: a proxied fetch whose upstream response carries no content-type
    header is served as image/jpeg; in the variants that sniff (both
    server.js proxies and the worker) the default is substituted before
    the blocked check, so the classification there depends on the body
    bytes alone; the scrapeAlbum variant serves the default with no check
    at all. -/
theorem c10_default_content_type :
    (∀ u : Upstream, u.ok = true → u.contentType = none →
      V2.attemptStep (.ok u) =
        (if strContains (jsToLower (strTake 140 u.body)) "<!doctype" ||
            strContains (jsToLower (strTake 140 u.body)) "<html" then
          .error "Blocked (HTML returned)"
        else .ok ("image/jpeg", u.body))) ∧
    (∀ u : Upstream, u.contentType = none →
      V1.imgProxy u =
        (if strContains (jsToLower (strTake 120 u.body)) "<!doctype" then .blocked
         else .ok "image/jpeg" u.body)) ∧
    (∀ u : Upstream, u.ok = true → u.contentType = none →
      P1.imgHandler u = .ok "image/jpeg" u.body) ∧
    (∀ u : Upstream, u.contentType = none →
      W.imgFetch u =
        (if strContains (strTake 120 u.body) "<!DOCTYPE" then .blocked
         else .ok "image/jpeg" u.body)) := by
  have hjpeg : strContains "image/jpeg" "text/html" = false := by decide
  refine ⟨?_, ?_, ?_, ?_⟩
  · intro u hok hct
    simp [V2.attemptStep, hok, hct, hjpeg]
  · intro u hct
    simp [V1.imgProxy, hct, hjpeg]
  · intro u hok hct
    simp [P1.imgHandler, hok, hct]
  · intro u hct
    simp [W.imgFetch, hct, hjpeg]

theorem c10_witness :
    V2.attemptStep (.ok { ok := true, contentType := none, body := "rawbytes" }) =
      (if strContains (jsToLower (strTake 140 "rawbytes")) "<!doctype" ||
          strContains (jsToLower (strTake 140 "rawbytes")) "<html" then
        .error "Blocked (HTML returned)"
      else .ok ("image/jpeg", "rawbytes")) ∧
    V1.imgProxy { ok := true, contentType := none, body := "rawbytes" } =
      (if strContains (jsToLower (strTake 120 "rawbytes")) "<!doctype" then .blocked
       else .ok "image/jpeg" "rawbytes") ∧
    P1.imgHandler { ok := true, contentType := none, body := "rawbytes" } =
      .ok "image/jpeg" "rawbytes" ∧
    W.imgFetch { ok := true, contentType := none, body := "rawbytes" } =
      (if strContains (strTake 120 "rawbytes") "<!DOCTYPE" then .blocked
       else .ok "image/jpeg" "rawbytes") :=
  ⟨c10_default_content_type.1 _ rfl rfl,
   c10_default_content_type.2.1 _ rfl,
   c10_default_content_type.2.2.1 _ rfl rfl,
   c10_default_content_type.2.2.2 _ rfl⟩

/- ----- C3 ----- -/

theorem applyEff_running (e : RunEff) (s : RunState) : (applyEff e s).running = s.running := by
  cases e <;> rfl

theorem execBody_running : ∀ (body : List RunEff) (k : Nat) (s : RunState),
    (execBody body k s).1.running = s.running := by
  intro body
  induction body with
  | nil => intro k s; rfl
  | cons e rest ih =>
    intro k s
    cases k with
    | zero => rfl
    | succ m =>
      show (execBody rest m (applyEff e s)).1.running = s.running
      rw [ih m (applyEff e s), applyEff_running]

theorem execBody_done_of_skips : ∀ (body : List RunEff) (k : Nat) (s : RunState),
    (∀ e ∈ body.take k, e = RunEff.skip) →
    (execBody body k s).1.done = s.done := by
  intro body
  induction body with
  | nil => intro k s _; rfl
  | cons e rest ih =>
    intro k s hk
    cases k with
    | zero => rfl
    | succ m =>
      have he : e = RunEff.skip := hk e (by simp)
      have hrest : ∀ e2 ∈ rest.take m, e2 = RunEff.skip := fun e2 hm => hk e2 (by simp [hm])
      show (execBody rest m (applyEff e s)).1.done = s.done
      rw [ih m (applyEff e s) hrest, he]
      rfl

/-- C3 (counterexample): in the scrapeAlbum variant the done write (line
    78) precedes the final page.close (line 79); failing index 7 means the
    close throws after the flag was persisted, so the run terminates by
    exception (second component true) with the done flag set — the lock is
    still released. -/
theorem c3_counterexample :
    P1.scrapeAlbum "album" 7 { running := [], done := false } =
      ({ running := [], done := true }, true) := by decide

/-- C3 (amended): on every exit path of a run — any failing statement
    index, or none — the RUNNING entry is released in both variants (the
    net effect on the RUNNING set is zero).  In scrapeAlbumProgressive the
    done write is the last abortable statement, so exceptional termination
    (failing index inside the body) never leaves the flag set; in
    scrapeAlbum the same holds for every failing index before the done
    write (index < 7), while an exception in the final page.close occurs
    after the flag write. -/
theorem c3_lock_release_amended :
    (∀ id k s, (V2.scrapeRun id k s).1.running = s.running) ∧
    (∀ id k s, k < V2.runBody.length → (V2.scrapeRun id k s).1.done = s.done) ∧
    (∀ id k s, (P1.scrapeAlbum id k s).1.running = s.running) ∧
    (∀ id k s, k < 7 → (P1.scrapeAlbum id k s).1.done = s.done) := by
  refine ⟨?_, ?_, ?_, ?_⟩
  · intro id k s
    by_cases hid : id ∈ s.running
    · simp [V2.scrapeRun, hid]
    · simp only [V2.scrapeRun, if_neg hid]
      rw [execBody_running]
      exact List.erase_cons_head id s.running
  · intro id k s hk
    by_cases hid : id ∈ s.running
    · simp [V2.scrapeRun, hid]
    · simp only [V2.scrapeRun, if_neg hid]
      have hk10 : k < 10 := by simpa [V2.runBody] using hk
      have hall : ∀ e ∈ V2.runBody.take k, e = RunEff.skip := by
        interval_cases k <;> decide
      rw [execBody_done_of_skips _ _ _ hall]
  · intro id k s
    by_cases hid : id ∈ s.running
    · simp [P1.scrapeAlbum, hid]
    · simp only [P1.scrapeAlbum, if_neg hid]
      rw [execBody_running]
      exact List.erase_cons_head id s.running
  · intro id k s hk
    by_cases hid : id ∈ s.running
    · simp [P1.scrapeAlbum, hid]
    · simp only [P1.scrapeAlbum, if_neg hid]
      have hall : ∀ e ∈ P1.runBody.take k, e = RunEff.skip := by
        interval_cases k <;> decide
      rw [execBody_done_of_skips _ _ _ hall]

theorem c3_witness :
    (V2.scrapeRun "album" 2 { running := [], done := false }).1.running = [] ∧
    (V2.scrapeRun "album" 2 { running := [], done := false }).1.done = false ∧
    (P1.scrapeAlbum "album" 2 { running := [], done := false }).1.running = [] ∧
    (P1.scrapeAlbum "album" 2 { running := [], done := false }).1.done = false :=
  ⟨c3_lock_release_amended.1 "album" 2 { running := [], done := false },
   c3_lock_release_amended.2.1 "album" 2 { running := [], done := false } (by decide),
   c3_lock_release_amended.2.2.1 "album" 2 { running := [], done := false },
   c3_lock_release_amended.2.2.2 "album" 2 { running := [], done := false } (by decide)⟩

/- ----- C7 ----- -/

/-- C7 (counterexample): with the cache store absent the progressive list
    endpoint does not degrade — it rejects the request with a 500 "Redis
    not configured" error, which is fatal to the caller. -/
theorem c7_counterexample :
    V2.progressGate false (some "https://shop.x.yupoo.com/albums/1") none =
      .reject 500 "Redis not configured" := rfl

/-- C7 (amended): only the non-progressive /api/yupoo endpoint degrades
    silently when the store is absent (it skips the cache and re-extracts),
    and only cache failures inside the extraction run (for instance a
    failing sadd in the response handler) are swallowed; the progressive
    list endpoint rejects the request outright when the store is absent,
    and an exception from a cache operation inside the handler surfaces to
    the caller as a 500 error. -/
theorem c7_degradation_amended :
    (∀ cv ext, V1.apiYupoo false cv ext = .ok ext false) ∧
    (∀ u, V2.progressGate false (some u) none = .reject 500 "Redis not configured") ∧
    (∀ u e, V2.progressGate true (some u) (some e) = .reject 500 e) ∧
    (∀ u, V2.progressGate true (some u) none = .pass) ∧
    (∀ c u2, V2.responseHandler false c u2 = c) := by
  refine ⟨?_, ?_, ?_, ?_, ?_⟩
  · intro cv ext; cases cv <;> rfl
  · intro u; rfl
  · intro u e; rfl
  · intro u; rfl
  · intro c u2; simp [V2.responseHandler]

/- ----- C8 helper lemmas ----- -/

theorem length_insertSorted (x : String) : ∀ l, (insertSorted x l).length = l.length + 1 := by
  intro l
  induction l with
  | nil => rfl
  | cons y ys ih =>
    by_cases h : strLeB x y
    · simp [insertSorted, h]
    · simp [insertSorted, h, ih]

theorem length_sortStrings : ∀ l, (sortStrings l).length = l.length := by
  intro l
  induction l with
  | nil => rfl
  | cons x xs ih => simp [sortStrings, length_insertSorted, ih]

theorem mem_insertSorted {y x : String} : ∀ {l}, y ∈ insertSorted x l ↔ y = x ∨ y ∈ l := by
  intro l
  induction l with
  | nil => simp [insertSorted]
  | cons z zs ih =>
    by_cases h : strLeB x z
    · simp [insertSorted, h]
    · simp only [insertSorted, if_neg h, List.mem_cons, ih]
      tauto

theorem mem_sortStrings {y : String} : ∀ {l}, y ∈ sortStrings l ↔ y ∈ l := by
  intro l
  induction l with
  | nil => simp [sortStrings]
  | cons x xs ih => simp [sortStrings, mem_insertSorted, ih]

theorem lexLe_total : ∀ as bs, lexLe as bs = true ∨ lexLe bs as = true := by
  intro as
  induction as with
  | nil => intro bs; left; rfl
  | cons a at2 ih =>
    intro bs
    cases bs with
    | nil => right; rfl
    | cons b bt =>
      by_cases hab : a < b
      · left; simp [lexLe, hab]
      · by_cases hba : b < a
        · right; simp [lexLe, hba]
        · rcases ih bt with h | h
          · left; simp [lexLe, hab, hba, h]
          · right; simp [lexLe, hab, hba, h]

theorem lexLe_trans : ∀ as bs cs, lexLe as bs = true → lexLe bs cs = true →
    lexLe as cs = true := by
  intro as
  induction as with
  | nil => intro bs cs _ _; rfl
  | cons a at2 ih =>
    intro bs cs h1 h2
    cases bs with
    | nil => simp [lexLe] at h1
    | cons b bt =>
      cases cs with
      | nil => simp [lexLe] at h2
      | cons c ct =>
        simp only [lexLe] at h1 h2 ⊢
        by_cases hab : a < b
        · by_cases hbc : b < c
          · have hac : a < c := lt_trans hab hbc
            simp [hac]
          · by_cases hcb : c < b
            · simp [hbc, hcb] at h2
            · have hbceq : b = c := le_antisymm (not_lt.mp hcb) (not_lt.mp hbc)
              have hac : a < c := hbceq ▸ hab
              simp [hac]
        · by_cases hba : b < a
          · simp [hab, hba] at h1
          · have habeq : a = b := le_antisymm (not_lt.mp hba) (not_lt.mp hab)
            by_cases hbc : b < c
            · have hac : a < c := habeq ▸ hbc
              simp [hac]
            · by_cases hcb : c < b
              · simp [hbc, hcb] at h2
              · have hbceq : b = c := le_antisymm (not_lt.mp hcb) (not_lt.mp hbc)
                have h1b : lexLe at2 bt = true := by simpa [hab, hba] using h1
                have h2b : lexLe bt ct = true := by simpa [hbc, hcb] using h2
                have hace : a = c := habeq.trans hbceq
                subst hace
                rw [if_neg (lt_irrefl a), if_neg (lt_irrefl a)]
                exact ih bt ct h1b h2b

theorem strLeB_total (a b : String) : strLeB a b = true ∨ strLeB b a = true :=
  lexLe_total a.toList b.toList

theorem strLeB_trans {a b c : String} (h1 : strLeB a b = true) (h2 : strLeB b c = true) :
    strLeB a c = true :=
  lexLe_trans a.toList b.toList c.toList h1 h2

theorem pairwise_insertSorted (x : String) :
    ∀ {l}, l.Pairwise (fun a b => strLeB a b = true) →
      (insertSorted x l).Pairwise (fun a b => strLeB a b = true) := by
  intro l
  induction l with
  | nil => intro _; simp [insertSorted]
  | cons y ys ih =>
    intro hp
    rw [List.pairwise_cons] at hp
    obtain ⟨hy, hys⟩ := hp
    by_cases h : strLeB x y
    · simp only [insertSorted, if_pos h]
      rw [List.pairwise_cons]
      constructor
      · intro z hz
        rcases List.mem_cons.mp hz with rfl | hz2
        · exact h
        · exact strLeB_trans h (hy z hz2)
      · exact List.pairwise_cons.mpr ⟨hy, hys⟩
    · have hyx : strLeB y x = true := (strLeB_total x y).resolve_left (by simpa using h)
      simp only [insertSorted, if_neg h]
      rw [List.pairwise_cons]
      constructor
      · intro z hz
        rcases mem_insertSorted.mp hz with rfl | hz2
        · exact hyx
        · exact hy z hz2
      · exact ih hys

theorem sorted_sortStrings : ∀ l, (sortStrings l).Pairwise (fun a b => strLeB a b = true) := by
  intro l
  induction l with
  | nil => simp [sortStrings]
  | cons x xs ih => exact pairwise_insertSorted x ih

/- ----- C8 ----- -/

/-- C8 (counterexample): with limit parameter "0" the claim demands the
    first min(0, 1) = 0 elements — the empty list — but the handler's
    `parseInt(...) || 300` fallback turns a zero limit into the default
    300, so the single stored element is returned anyway. -/
theorem c8_counterexample :
    (V2.progressPayload ["https://p.x.yupoo.com/a/one_small.jpeg"] true
        (some "0")).imagesOriginal =
      ["https://p.x.yupoo.com/a/one_small.jpeg"] := by decide

/-- C8 (amended): the limit caps only what is returned, never what is
    stored, but through the handler's parsing: the effective limit is the
    leading-integer parse of the parameter with absent, empty, unparsable
    or zero values defaulting to 300, clamped to at most 800.  The count
    field reports the full stored size; imagesOriginal is a prefix of the
    lexicographically sorted stored set of length min(effectiveLimit,
    size), every returned entry comes from the store, and the returned
    list is sorted.  The scrapeAlbum variant has no limit parameter at all
    and returns the whole sorted set. -/
theorem c8_limit_amended :
    (∀ stored df lp, (V2.progressPayload stored df lp).count = stored.length) ∧
    (∀ stored df lp, 0 ≤ V2.effLimit lp →
      (V2.progressPayload stored df lp).imagesOriginal.length =
        min (V2.effLimit lp).toNat stored.length) ∧
    (∀ stored df lp u, u ∈ (V2.progressPayload stored df lp).imagesOriginal → u ∈ stored) ∧
    (∀ stored df lp,
      ((V2.progressPayload stored df lp).imagesOriginal).Pairwise
        (fun a b => strLeB a b = true)) ∧
    (∀ stored df, (P1.progressPayload stored df).imagesOriginal = sortStrings stored) := by
  refine ⟨?_, ?_, ?_, ?_, ?_⟩
  · intro stored df lp
    simp [V2.progressPayload, length_sortStrings]
  · intro stored df lp h
    simp only [V2.progressPayload, jsSliceTo]
    rw [if_neg (not_lt.mpr h), List.length_take, length_sortStrings]
  · intro stored df lp u hu
    simp only [V2.progressPayload, jsSliceTo] at hu
    split at hu <;> exact mem_sortStrings.mp (List.mem_of_mem_take hu)
  · intro stored df lp
    simp only [V2.progressPayload, jsSliceTo]
    split <;>
      exact List.Pairwise.sublist (List.take_sublist _ _) (sorted_sortStrings stored)
  · intro stored df
    rfl

theorem c8_witness :
    (V2.progressPayload ["b", "a"] false (some "1")).imagesOriginal.length =
      min (V2.effLimit (some "1")).toNat 2 ∧
    "a" ∈ ["b", "a"] :=
  ⟨c8_limit_amended.2.1 ["b", "a"] false (some "1") (by decide),
   c8_limit_amended.2.2.1 ["b", "a"] false (some "1") "a" (by decide)⟩

/- ----- C1 helper lemmas ----- -/

theorem step_invRun {s s2 : Sys} {a : Act} (hs : InvRun s) (h : step s a = some s2) :
    InvRun s2 := by
  cases a with
  | readDone g0 =>
    simp only [step, Option.some.injEq] at h
    subst h
    exact hs
  | dispatch g0 b =>
    simp only [step] at h
    split at h
    · simp only [Option.some.injEq] at h
      subst h
      exact hs
    · cases h
  | startRun g0 =>
    simp only [step] at h
    split at h
    case isTrue hq =>
      split at h
      case isTrue hr =>
        simp only [Option.some.injEq] at h
        subst h
        exact hs
      case isFalse hr =>
        simp only [Option.some.injEq] at h
        subst h
        intro g
        by_cases hg : g = g0
        · subst hg
          have h0 : s.active g = 0 := by
            by_contra hne
            exact hr ((hs g).2 (Nat.pos_of_ne_zero hne))
          constructor
          · show (if g = g then s.active g + 1 else s.active g) ≤ 1
            rw [if_pos rfl, h0]
          · intro _
            show g ∈ g :: s.running
            exact List.mem_cons_self g s.running
        · constructor
          · show (if g = g0 then s.active g + 1 else s.active g) ≤ 1
            rw [if_neg hg]
            exact (hs g).1
          · intro hpos
            have hpos2 : 0 < s.active g := by
              have heq : ({ s with
                  queued := s.queued.erase g0,
                  running := g0 :: s.running,
                  active := fun h2 => if h2 = g0 then s.active h2 + 1 else s.active h2 } :
                    Sys).active g = s.active g := if_neg hg
              rw [heq] at hpos
              exact hpos
            exact List.mem_cons_of_mem g0 ((hs g).2 hpos2)
    case isFalse hq => cases h
  | record g0 u0 =>
    simp only [step] at h
    split at h
    · simp only [Option.some.injEq] at h
      subst h
      exact hs
    · cases h
  | commit g0 u0 =>
    simp only [step] at h
    split at h
    · simp only [Option.some.injEq] at h
      subst h
      exact hs
    · cases h
  | finishOk g0 =>
    simp only [step] at h
    split at h
    case isTrue hpos =>
      simp only [Option.some.injEq] at h
      subst h
      intro g
      by_cases hg : g = g0
      · subst hg
        constructor
        · show (if g = g then s.active g - 1 else s.active g) ≤ 1
          rw [if_pos rfl]
          have := (hs g).1
          omega
        · intro hp2
          have habs : (if g = g then s.active g - 1 else s.active g) = s.active g - 1 :=
            if_pos rfl
          rw [show ({ s with
              done := fun h2 => if h2 = g then true else s.done h2,
              running := s.running.erase g,
              active := fun h2 => if h2 = g then s.active h2 - 1 else s.active h2 } :
                Sys).active g = (if g = g then s.active g - 1 else s.active g) from rfl,
            habs] at hp2
          have := (hs g).1
          omega
      · constructor
        · show (if g = g0 then s.active g - 1 else s.active g) ≤ 1
          rw [if_neg hg]
          exact (hs g).1
        · intro hp2
          have hpos2 : 0 < s.active g := by
            have heq : (if g = g0 then s.active g - 1 else s.active g) = s.active g :=
              if_neg hg
            rw [show ({ s with
                done := fun h2 => if h2 = g0 then true else s.done h2,
                running := s.running.erase g0,
                active := fun h2 => if h2 = g0 then s.active h2 - 1 else s.active h2 } :
                  Sys).active g = (if g = g0 then s.active g - 1 else s.active g) from rfl,
              heq] at hp2
            exact hp2
          exact (List.mem_erase_of_ne hg).mpr ((hs g).2 hpos2)
    case isFalse => cases h
  | finishErr g0 =>
    simp only [step] at h
    split at h
    case isTrue hpos =>
      simp only [Option.some.injEq] at h
      subst h
      intro g
      by_cases hg : g = g0
      · subst hg
        constructor
        · show (if g = g then s.active g - 1 else s.active g) ≤ 1
          rw [if_pos rfl]
          have := (hs g).1
          omega
        · intro hp2
          have habs : (if g = g then s.active g - 1 else s.active g) = s.active g - 1 :=
            if_pos rfl
          rw [show ({ s with
              running := s.running.erase g,
              active := fun h2 => if h2 = g then s.active h2 - 1 else s.active h2 } :
                Sys).active g = (if g = g then s.active g - 1 else s.active g) from rfl,
            habs] at hp2
          have := (hs g).1
          omega
      · constructor
        · show (if g = g0 then s.active g - 1 else s.active g) ≤ 1
          rw [if_neg hg]
          exact (hs g).1
        · intro hp2
          have hpos2 : 0 < s.active g := by
            have heq : (if g = g0 then s.active g - 1 else s.active g) = s.active g :=
              if_neg hg
            rw [show ({ s with
                running := s.running.erase g0,
                active := fun h2 => if h2 = g0 then s.active h2 - 1 else s.active h2 } :
                  Sys).active g = (if g = g0 then s.active g - 1 else s.active g) from rfl,
              heq] at hp2
            exact hp2
          exact (List.mem_erase_of_ne hg).mpr ((hs g).2 hpos2)
    case isFalse => cases h

theorem runTraceFrom_invRun : ∀ tr {s s2 : Sys}, InvRun s →
    runTraceFrom s tr = some s2 → InvRun s2 := by
  intro tr
  induction tr with
  | nil =>
    intro s s2 hs h
    have := Option.some.inj h
    subst this
    exact hs
  | cons a tr2 ih =>
    intro s s2 hs h
    simp only [runTraceFrom] at h
    cases hst : step s a with
    | none => rw [hst] at h; cases h
    | some smid =>
      rw [hst] at h
      exact ih (step_invRun hs hst) h

theorem invRun_initSys : InvRun initSys :=
  fun _ => ⟨Nat.zero_le 1, fun hpos => absurd hpos (lt_irrefl 0)⟩

/- ----- C1 ----- -/

/-- C1: in every reachable state of the coordinator at most one extraction
    run is active per gallery identifier, even when any number of
    concurrent list requests trigger extraction simultaneously; a queued
    scrapeAlbumProgressive call whose guard finds the identifier already
    in RUNNING returns immediately without starting a run, and otherwise
    it inserts the identifier into RUNNING as it becomes active; the
    run-level guards of both scrape functions likewise return immediately,
    with no state change, when the identifier is already in RUNNING. -/
theorem c1_at_most_one_run :
    (∀ tr s, runTrace tr = some s → ∀ g, s.active g ≤ 1) ∧
    (∀ s (g : String), g ∈ s.queued → g ∈ s.running →
      step s (.startRun g) = some { s with queued := s.queued.erase g }) ∧
    (∀ s (g : String), g ∈ s.queued → g ∉ s.running →
      step s (.startRun g) = some { s with
        queued := s.queued.erase g,
        running := g :: s.running,
        active := fun h => if h = g then s.active h + 1 else s.active h }) ∧
    (∀ id k s, id ∈ s.running → V2.scrapeRun id k s = (s, false)) ∧
    (∀ id k s, id ∈ s.running → P1.scrapeAlbum id k s = (s, false)) := by
  refine ⟨?_, ?_, ?_, ?_, ?_⟩
  · intro tr s h g
    exact (runTraceFrom_invRun tr invRun_initSys h g).1
  · intro s g hq hr
    simp only [step]
    rw [if_pos hq, if_pos hr]
  · intro s g hq hr
    simp only [step]
    rw [if_pos hq, if_neg hr]
  · intro id k s hid
    simp [V2.scrapeRun, hid]
  · intro id k s hid
    simp [P1.scrapeAlbum, hid]

theorem c1_witness :
    ((runTrace demoTrace).getD initSys).active "album1" ≤ 1 ∧
    step demoSysBusy (.startRun "album1") =
      some { demoSysBusy with queued := demoSysBusy.queued.erase "album1" } ∧
    step demoSysIdle (.startRun "album1") =
      some { demoSysIdle with
        queued := demoSysIdle.queued.erase "album1",
        running := "album1" :: demoSysIdle.running,
        active := fun h => if h = "album1" then demoSysIdle.active h + 1
          else demoSysIdle.active h } ∧
    V2.scrapeRun "album1" 3 { running := ["album1"], done := false } =
      ({ running := ["album1"], done := false }, false) ∧
    P1.scrapeAlbum "album1" 3 { running := ["album1"], done := false } =
      ({ running := ["album1"], done := false }, false) :=
  ⟨c1_at_most_one_run.1 demoTrace ((runTrace demoTrace).getD initSys) rfl "album1",
   c1_at_most_one_run.2.1 demoSysBusy "album1" (by decide) (by decide),
   c1_at_most_one_run.2.2.1 demoSysIdle "album1" (by decide) (by decide),
   c1_at_most_one_run.2.2.2.1 "album1" 3 { running := ["album1"], done := false } (by decide),
   c1_at_most_one_run.2.2.2.2 "album1" 3 { running := ["album1"], done := false } (by decide)⟩

/- ----- C2 helper lemmas ----- -/

